import Mathlib

/-
Verification of the key-combination model, device discovery/resolution, and
event-capture pipeline of evremap-gtk, as a shallow embedding of the Rust
source (src/key_combo.rs, src/deviceinfo.rs, src/components/event_logger.rs).
-/

namespace EvremapGtk

/-- Model of the evdev key-code enumeration (src/evdev_utils.rs re-exports
evdev EV_KEY as KeyCode). The nine modifier keys are modelled explicitly;
the hundreds of remaining key codes are modelled by KEY_A, KEY_B, KEY_C and
a generic constructor KEY_OTHER carrying a numeric identity. -/
inductive KeyCode where
  | KEY_FN
  | KEY_LEFTALT
  | KEY_RIGHTALT
  | KEY_LEFTMETA
  | KEY_RIGHTMETA
  | KEY_LEFTCTRL
  | KEY_RIGHTCTRL
  | KEY_LEFTSHIFT
  | KEY_RIGHTSHIFT
  | KEY_A
  | KEY_B
  | KEY_C
  | KEY_OTHER (n : Nat)
  deriving DecidableEq

/-- Embedding of fn is_modifier (src/key_combo.rs lines 4-17): true exactly
on the nine designated modifier keys. -/
def is_modifier (key : KeyCode) : Bool :=
  match key with
  | .KEY_FN => true
  | .KEY_LEFTALT => true
  | .KEY_RIGHTALT => true
  | .KEY_LEFTMETA => true
  | .KEY_RIGHTMETA => true
  | .KEY_LEFTCTRL => true
  | .KEY_RIGHTCTRL => true
  | .KEY_LEFTSHIFT => true
  | .KEY_RIGHTSHIFT => true
  | _ => false

/-- Embedding of const MODIFIERS (src/key_combo.rs lines 30-40): the fixed
declared order of the nine modifier keys. -/
def MODIFIERS : List KeyCode :=
  [.KEY_FN, .KEY_LEFTALT, .KEY_RIGHTALT, .KEY_LEFTMETA, .KEY_RIGHTMETA,
   .KEY_LEFTCTRL, .KEY_RIGHTCTRL, .KEY_LEFTSHIFT, .KEY_RIGHTSHIFT]

/-- Embedding of struct ModifierKeysMask(u16) (src/key_combo.rs line 43).
The u16 is modelled as a Nat; all mask arithmetic that depends on width is
taken modulo 2^16 explicitly where it matters (the bit complement in
remove). -/
structure ModifierKeysMask where
  mask : Nat
  deriving DecidableEq

/-- Embedding of ModifierKeysMask::from_keycode (src/key_combo.rs lines
56-72) together with the bit constants of lines 46-54: each modifier key is
mapped to its fixed single-bit value, every other key to none. -/
def from_keycode (key : KeyCode) : Option Nat :=
  match key with
  | .KEY_FN => some 1
  | .KEY_LEFTALT => some 2
  | .KEY_RIGHTALT => some 4
  | .KEY_LEFTMETA => some 8
  | .KEY_RIGHTMETA => some 16
  | .KEY_LEFTCTRL => some 32
  | .KEY_RIGHTCTRL => some 64
  | .KEY_LEFTSHIFT => some 128
  | .KEY_RIGHTSHIFT => some 256
  | _ => none

/-- Embedding of ModifierKeysMask::add (src/key_combo.rs lines 74-78):
bitwise or with the bit of the key; a non-modifier key is ignored. -/
def ModifierKeysMask.add (m : ModifierKeysMask) (key : KeyCode) : ModifierKeysMask :=
  match from_keycode key with
  | some b => ⟨m.mask ||| b⟩
  | none => m

/-- Embedding of ModifierKeysMask::remove (src/key_combo.rs lines 80-84):
bitwise and with the u16 complement of the bit of the key. -/
def ModifierKeysMask.remove (m : ModifierKeysMask) (key : KeyCode) : ModifierKeysMask :=
  match from_keycode key with
  | some b => ⟨m.mask &&& (65535 ^^^ b)⟩
  | none => m

/-- Embedding of ModifierKeysMask::contains (src/key_combo.rs lines 86-92). -/
def ModifierKeysMask.contains (m : ModifierKeysMask) (key : KeyCode) : Bool :=
  match from_keycode key with
  | some b => (m.mask &&& b) != 0
  | none => false

/-- Embedding of ModifierKeysMask::into_iter (src/key_combo.rs lines 94-96):
the MODIFIERS list filtered down to the contained keys, materialised as a
list. -/
def ModifierKeysMask.toList (m : ModifierKeysMask) : List KeyCode :=
  MODIFIERS.filter (fun k => m.contains k)

/-- The scan loop inside ModifierKeysMask::pop (src/key_combo.rs lines
102-107): walk the given key list, remove and return the first key the mask
contains; falling off the end of the list yields none (the branch the
source comments as unreachable). -/
def popScan (m : ModifierKeysMask) : List KeyCode → Option (KeyCode × ModifierKeysMask)
  | [] => none
  | k :: rest => if m.contains k then some (k, m.remove k) else popScan m rest

/-- Embedding of ModifierKeysMask::pop (src/key_combo.rs lines 98-111):
on a zero mask return none; otherwise scan MODIFIERS in reverse order and
remove the first contained key; the fall-through after the loop returns
none with the mask unchanged. -/
def ModifierKeysMask.pop (m : ModifierKeysMask) : Option KeyCode × ModifierKeysMask :=
  if m.mask = 0 then (none, m)
  else
    match popScan m MODIFIERS.reverse with
    | some (k, m2) => (some k, m2)
    | none => (none, m)

/-- Embedding of struct KeyCombination (src/key_combo.rs lines 114-118):
a modifier bitmask plus an ordered list of non-modifier keys. -/
structure KeyCombination where
  modifiers : ModifierKeysMask
  keys : List KeyCode
  deriving DecidableEq

/-- The Default value of KeyCombination: empty mask, no keys. -/
def KeyCombination.empty : KeyCombination := ⟨⟨0⟩, []⟩

/-- Embedding of KeyCombination::clear (src/key_combo.rs lines 121-124). -/
def KeyCombination.clear (_c : KeyCombination) : KeyCombination := KeyCombination.empty

/-- Embedding of KeyCombination::push (src/key_combo.rs lines 126-132):
a modifier key is added to the mask; a non-modifier key is appended only
when not already present. -/
def KeyCombination.push (c : KeyCombination) (key : KeyCode) : KeyCombination :=
  if is_modifier key then { c with modifiers := c.modifiers.add key }
  else if c.keys.contains key then c
  else { c with keys := c.keys ++ [key] }

/-- Repeated push over a list, left to right. -/
def KeyCombination.pushAll (c : KeyCombination) (l : List KeyCode) : KeyCombination :=
  l.foldl KeyCombination.push c

/-- Embedding of KeyCombination::pop (src/key_combo.rs lines 134-140): when
the non-modifier list is non-empty, Vec::pop removes and returns its last
element; otherwise the modifier mask pop is used. -/
def KeyCombination.pop (c : KeyCombination) : Option KeyCode × KeyCombination :=
  match c.keys.getLast? with
  | some k => (some k, { c with keys := c.keys.dropLast })
  | none =>
    let r := c.modifiers.pop
    (r.1, { c with modifiers := r.2 })

/-- Embedding of KeyCombination::iter / KeyCombination::to_keys
(src/key_combo.rs lines 142-151): set modifiers in fixed declared order,
then the non-modifier keys in insertion order. -/
def KeyCombination.to_keys (c : KeyCombination) : List KeyCode :=
  c.modifiers.toList ++ c.keys

/-- The loop body of impl FromIterator for KeyCombination (src/key_combo.rs
lines 163-169): a modifier is added to the mask, any other key is appended
to the key list unconditionally (no duplicate check). -/
def fromIterStep (res : KeyCombination) (key : KeyCode) : KeyCombination :=
  if is_modifier key then { res with modifiers := res.modifiers.add key }
  else { res with keys := res.keys ++ [key] }

/-- Embedding of impl FromIterator for KeyCombination (src/key_combo.rs
lines 160-172): fold the loop body over the input, starting from the
default combination. -/
def KeyCombination.from_iter (l : List KeyCode) : KeyCombination :=
  l.foldl fromIterStep KeyCombination.empty

/-- Fuelled iteration of KeyCombination::pop, collecting the returned keys
until pop reports nothing to remove. -/
def popAll : KeyCombination → Nat → List KeyCode
  | _, 0 => []
  | c, fuel + 1 =>
    match c.pop with
    | (some k, c2) => k :: popAll c2 fuel
    | (none, _) => []

/-- First-seen deduplication with an accumulator of already-seen elements:
keeps the first occurrence of each element, in order. -/
def dedupFirstAux (seen : List KeyCode) : List KeyCode → List KeyCode
  | [] => []
  | a :: l => if a ∈ seen then dedupFirstAux seen l else a :: dedupFirstAux (a :: seen) l

/-- Masks reachable from the default empty mask through any sequence of
add, remove and pop operations, the only mutators of ModifierKeysMask in
src/key_combo.rs. -/
inductive ReachableMask : ModifierKeysMask → Prop where
  | start : ReachableMask ⟨0⟩
  | add (k : KeyCode) {m : ModifierKeysMask} : ReachableMask m → ReachableMask (m.add k)
  | remove (k : KeyCode) {m : ModifierKeysMask} : ReachableMask m → ReachableMask (m.remove k)
  | pop {m : ModifierKeysMask} : ReachableMask m → ReachableMask (m.pop).2

/-- Embedding of struct DeviceInfo (src/deviceinfo.rs lines 10-16). The
filesystem path is modelled as its string form. -/
structure DeviceInfo where
  name : String
  phys : Option String
  path : String
  supports_remap : Bool
  deriving DecidableEq

/-- Embedding of enum DeviceInfoError (src/deviceinfo.rs lines 18-30); the
io-error payloads are dropped, the name and phys payloads of the not-found
variants are kept. -/
inductive DeviceInfoError where
  | FileOpenError (path : String)
  | IoError
  | EvdevError
  | DeviceNotFoundByName (name : String)
  | DeviceNotFound (name : String) (phys : String)
  deriving DecidableEq

/-- Digit-string parse used by Rust u32 from_str: at least one character,
an optional leading plus sign, every remaining character an ascii digit,
and the value must fit in a u32, otherwise the parse fails. -/
def parseDigits (cs : List Char) : Option Nat :=
  if cs = [] then none
  else if cs.all (fun c => c.isDigit) then
    some (cs.foldl (fun a c => a * 10 + (c.toNat - 48)) 0)
  else none

/-- Rust str::parse::<u32> on a character list: optional leading plus sign,
then digits; values at or above 2^32 fail. -/
def parse_u32 (cs : List Char) : Option Nat :=
  let body :=
    match cs with
    | '+' :: rest => parseDigits rest
    | _ => parseDigits cs
  match body with
  | some v => if v < 2 ^ 32 then some v else none
  | none => none

/-- The character pattern of the literal "event". -/
def eventPat : List Char := ['e', 'v', 'e', 'n', 't']

/-- Index of the last occurrence of "event" in the character list, as in
Rust str::rfind (src/deviceinfo.rs line 130). -/
def rfindEvent (cs : List Char) : Option Nat :=
  ((List.range (cs.length + 1)).filter (fun i => eventPat.isPrefixOf (cs.drop i))).getLast?

/-- Embedding of fn event_number_from_path (src/deviceinfo.rs lines
128-136): take the suffix after the last occurrence of "event", parse it as
a u32, and default to 0 on any failure. -/
def event_number_from_path (path : String) : Nat :=
  let cs := path.toList
  match rfindEvent cs with
  | some idx =>
    match parse_u32 (cs.drop (idx + 5)) with
    | some v => v
    | none => 0
  | none => 0

/-- The sort key of the device ordering: display name first, then the
numeric suffix of the device path. -/
def devKey (d : DeviceInfo) : String × Nat := (d.name, event_number_from_path d.path)

/-- Lexicographic comparison of character lists: the model of the Rust
String ordering (byte-wise lexicographic, which coincides with scalar-value
lexicographic order under UTF-8). -/
def charListLt : List Char → List Char → Bool
  | _, [] => false
  | [], _ :: _ => true
  | a :: as, b :: bs => if a = b then charListLt as bs else decide (a < b)

/-- The Rust Ord comparison on String (a.cmp(&b) is Less), modelled on the
character lists of the two strings. -/
def stringLt (a b : String) : Bool :=
  charListLt a.toList b.toList

/-- The total preorder of the comparator passed to sort_by in
DeviceInfo::obtain_device_list (src/deviceinfo.rs lines 118-123): name
ascending, ties broken by the numeric path suffix ascending. -/
def deviceLe (a b : DeviceInfo) : Prop :=
  stringLt a.name b.name = true ∨
    (a.name = b.name ∧ event_number_from_path a.path ≤ event_number_from_path b.path)

instance : DecidableRel deviceLe := fun a b =>
  inferInstanceAs
    (Decidable
      (stringLt a.name b.name = true ∨
        (a.name = b.name ∧ event_number_from_path a.path ≤ event_number_from_path b.path)))

/-- The strict version of the device ordering: the sort key of one device
is strictly below that of the other. -/
def deviceKeyLt (a b : DeviceInfo) : Prop :=
  stringLt a.name b.name = true ∨
    (a.name = b.name ∧ event_number_from_path a.path < event_number_from_path b.path)

/-- The sorting step of DeviceInfo::obtain_device_list (src/deviceinfo.rs
lines 116-123), applied to the list of successfully probed devices: a
stable sort by the comparator above. Rust sort_by is stable, and a stable
sort with respect to a total preorder is a unique function of the input
list, so the stable insertion sort is a faithful model. -/
def sortDevices (l : List DeviceInfo) : List DeviceInfo :=
  l.insertionSort deviceLe

/-- Embedding of DeviceInfo::with_name (src/deviceinfo.rs lines 46-90),
parameterised by the discovered device list. With a phys query: take the
first device whose phys equals the query (the name plays no part), or fail
with DeviceNotFound. Without one: filter by exact name; an empty result is
DeviceNotFoundByName, otherwise the first filtered device is returned
(multiple matches only produce a log warning). -/
def with_name (devices : List DeviceInfo) (name : String) (phys : Option String) :
    Except DeviceInfoError DeviceInfo :=
  match phys with
  | some query_phys =>
    match devices.find? (fun item => item.phys == some query_phys) with
    | some d => .ok d
    | none => .error (.DeviceNotFound name query_phys)
  | none =>
    match devices.filter (fun item => item.name == name) with
    | [] => .error (.DeviceNotFoundByName name)
    | d :: _ => .ok d

/-- Embedding of enum EventLoggerMsg (src/components/event_logger.rs lines
28-34): the coordinator-facing operations. -/
inductive EventLoggerMsg where
  | Pause
  | Resume
  | Clear
  | SetDevice (dev : DeviceInfo)
  | ClearDevice

/-- Embedding of enum EventCommandMsg (src/components/event_logger.rs lines
37-40): messages from the background worker. The io-error payload is
dropped. -/
inductive EventCommandMsg where
  | NewEvent (key : KeyCode) (val : Int)
  | ErrorOccured

/-- State of the EventLogger component (src/components/event_logger.rs
lines 10-14). The gtk TextBuffer is modelled as the list of appended
(key, value) records; the worker handle inside DeviceLoggerState is not
part of the observable state. -/
structure EventLoggerModel where
  device : Option DeviceInfo
  text_buf : List (KeyCode × Int)
  is_paused : Bool
  deriving DecidableEq

/-- The initial component state built by init with no device
(src/components/event_logger.rs lines 168-172): no device, empty buffer,
paused. -/
def EventLoggerModel.start : EventLoggerModel := ⟨none, [], true⟩

/-- Embedding of EventLogger::update (src/components/event_logger.rs lines
183-194) together with set_device (lines 251-265) and clear_device (lines
267-273): Pause and Resume toggle only the flag; Clear pauses and empties
the buffer; SetDevice pauses, empties the buffer and installs the device
(spawning a fresh worker); ClearDevice pauses, empties the buffer and
drops the device. -/
def EventLoggerModel.update (m : EventLoggerModel) (msg : EventLoggerMsg) : EventLoggerModel :=
  match msg with
  | .Pause => { m with is_paused := true }
  | .Resume => { m with is_paused := false }
  | .Clear => { m with is_paused := true, text_buf := [] }
  | .SetDevice dev => { device := some dev, text_buf := [], is_paused := true }
  | .ClearDevice => { device := none, text_buf := [], is_paused := true }

/-- Embedding of EventLogger::update_cmd (src/components/event_logger.rs
lines 196-217): a NewEvent is appended to the buffer only when not paused
and a device is set; otherwise the message is consumed with no state
change. An error message is forwarded to the output with no state
change. -/
def EventLoggerModel.update_cmd (m : EventLoggerModel) (msg : EventCommandMsg) : EventLoggerModel :=
  match msg with
  | .NewEvent key val =>
    if !m.is_paused && m.device.isSome then { m with text_buf := m.text_buf ++ [(key, val)] }
    else m
  | .ErrorOccured => m

/-- One message arriving at the coordinator: either a widget input or a
worker command message. -/
inductive CoordEvent where
  | input (msg : EventLoggerMsg)
  | cmd (c : EventCommandMsg)

/-- Running the coordinator over a finite message trace. -/
def EventLoggerModel.run (m : EventLoggerModel) (tr : List CoordEvent) : EventLoggerModel :=
  tr.foldl
    (fun st ev =>
      match ev with
      | .input msg => st.update msg
      | .cmd c => st.update_cmd c)
    m

/-- Outcome of one next_event read in the worker loop
(src/components/event_logger.rs line 236): an io error (propagated by the
question-mark operator), or a status paired with the event read. -/
inductive ReadStatus where
  | success
  | sync

/-- The event carried by a successful read: a key event with code and raw
value, or any other event type. -/
inductive EventKind where
  | key (code : KeyCode) (value : Int)
  | other

/-- Outcome of one try_recv poll of the stop channel
(src/components/event_logger.rs lines 230-234). -/
inductive PollResult where
  | msgStop
  | disconnected
  | empty

/-- The inputs one loop iteration of the worker consumes: the poll of the
stop channel, then the read from the device (only reached when the poll is
empty). -/
structure WorkerIter where
  poll : PollResult
  read : Except Nat (ReadStatus × EventKind)

/-- Terminal outcome of the worker loop: stopped corresponds to a break
(returning Ok), failed to an io error propagated out, pending to a trace
that ends while the loop is still running. -/
inductive WorkerOutcome where
  | stopped
  | failed (e : Nat)
  | pending
  deriving DecidableEq

/-- Embedding of the loop of EventLogger::event_logger_task
(src/components/event_logger.rs lines 229-247), run over a finite script
of iteration inputs: each iteration first polls the stop channel without
blocking (a stop message or a disconnected channel breaks the loop), then
performs one blocking read; an io error ends the task with that error, a
successful key event is forwarded in order, any other successful event is
discarded, and a sync status breaks the loop. Returns the forwarded
(key, value) messages in order together with the outcome. -/
def event_logger_task : List WorkerIter → List (KeyCode × Int) × WorkerOutcome
  | [] => ([], .pending)
  | it :: rest =>
    match it.poll with
    | .msgStop => ([], .stopped)
    | .disconnected => ([], .stopped)
    | .empty =>
      match it.read with
      | .error e => ([], .failed e)
      | .ok (.success, ev) =>
        let r := event_logger_task rest
        match ev with
        | .key c v => ((c, v) :: r.1, r.2)
        | .other => r
      | .ok (.sync, _) => ([], .stopped)

/-- Modelled from the spec (worker contract, spec sections 4.5 and 5): an
iteration is terminal when its stop poll is non-empty, its read fails, or
its read reports a sync status. -/
def iterTerminal (it : WorkerIter) : Bool :=
  match it.poll with
  | .msgStop => true
  | .disconnected => true
  | .empty =>
    match it.read with
    | .error _ => true
    | .ok (.sync, _) => true
    | .ok (.success, _) => false

/-- Modelled from the spec: the key event an iteration forwards, when it is
non-terminal and reads a successful key event. -/
def iterKeyEvent (it : WorkerIter) : Option (KeyCode × Int) :=
  match it.poll with
  | .empty =>
    match it.read with
    | .ok (.success, .key c v) => some (c, v)
    | _ => none
  | _ => none

/-- Modelled from the spec: the events the worker forwards are exactly the
key events of the iterations strictly before the first terminal one, in
script order. -/
def forwardedSpec (s : List WorkerIter) : List (KeyCode × Int) :=
  (s.takeWhile (fun it => !iterTerminal it)).filterMap iterKeyEvent

/-- Modelled from the spec: the outcome is decided by the first terminal
iteration: a stop message, a disconnected channel or a sync status stop the
worker; a read error fails it with that error; a script with no terminal
iteration leaves it pending. -/
def outcomeSpec (s : List WorkerIter) : WorkerOutcome :=
  match s.dropWhile (fun it => !iterTerminal it) with
  | [] => .pending
  | it :: _ =>
    match it.poll with
    | .msgStop => .stopped
    | .disconnected => .stopped
    | .empty =>
      match it.read with
      | .error e => .failed e
      | .ok _ => .stopped

/-
Helper lemmas about the modifier mask.
-/

lemma from_keycode_bound {k : KeyCode} {b : Nat} (h : from_keycode k = some b) :
    0 < b ∧ b < 512 := by
  cases k <;> simp [from_keycode] at h <;> omega

lemma mask_add_lt {m : ModifierKeysMask} (hm : m.mask < 512) (k : KeyCode) :
    (m.add k).mask < 512 := by
  cases hfk : from_keycode k with
  | none => simpa [ModifierKeysMask.add, hfk] using hm
  | some b =>
    have hb := (from_keycode_bound hfk).2
    have h2 : m.mask ||| b < 2 ^ 9 := Nat.or_lt_two_pow hm hb
    simpa [ModifierKeysMask.add, hfk] using h2

lemma mask_remove_le (m : ModifierKeysMask) (k : KeyCode) :
    (m.remove k).mask ≤ m.mask := by
  cases hfk : from_keycode k with
  | none => simp [ModifierKeysMask.remove, hfk]
  | some b => simpa [ModifierKeysMask.remove, hfk] using Nat.and_le_left

lemma popScan_state {m : ModifierKeysMask} :
    ∀ {ks : List KeyCode} {k : KeyCode} {m2 : ModifierKeysMask},
      popScan m ks = some (k, m2) → m2 = m.remove k := by
  intro ks
  induction ks with
  | nil => intro k m2 h; simp [popScan] at h
  | cons a rest ih =>
    intro k m2 h
    by_cases hc : m.contains a = true
    · simp [popScan, hc] at h
      obtain ⟨hk, hm2⟩ := h
      subst hk
      exact hm2.symm
    · simp [popScan, hc] at h
      exact ih h

lemma mask_pop_le (m : ModifierKeysMask) : (m.pop).2.mask ≤ m.mask := by
  unfold ModifierKeysMask.pop
  by_cases h0 : m.mask = 0
  · simp [h0]
  · rw [if_neg h0]
    cases hscan : popScan m MODIFIERS.reverse with
    | none => simp
    | some p =>
      obtain ⟨k, m2⟩ := p
      have hst := popScan_state hscan
      subst hst
      simpa using mask_remove_le m k

set_option maxRecDepth 8192 in
lemma popScan_total_fin :
    ∀ i : Fin 512, i.val ≠ 0 →
      (popScan ⟨i.val⟩ MODIFIERS.reverse).isSome = true := by decide

set_option maxRecDepth 8192 in
lemma popAll_mods_fin :
    ∀ i : Fin 512,
      popAll ⟨⟨i.val⟩, []⟩ 9 =
        [KeyCode.KEY_RIGHTSHIFT, .KEY_LEFTSHIFT, .KEY_RIGHTCTRL, .KEY_LEFTCTRL,
         .KEY_RIGHTMETA, .KEY_LEFTMETA, .KEY_RIGHTALT, .KEY_LEFTALT, .KEY_FN].filter
          (fun k => ModifierKeysMask.contains ⟨i.val⟩ k) := by decide

lemma push_modifier {c : KeyCombination} {k : KeyCode} (h : is_modifier k = true) :
    c.push k = { c with modifiers := c.modifiers.add k } := by
  simp [KeyCombination.push, h]

lemma mask_add_comm (m : ModifierKeysMask) (x y : KeyCode) :
    (m.add x).add y = (m.add y).add x := by
  cases hx : from_keycode x with
  | none => simp [ModifierKeysMask.add, hx]
  | some bx =>
    cases hy : from_keycode y with
    | none => simp [ModifierKeysMask.add, hx, hy]
    | some b =>
      simp only [ModifierKeysMask.add, hx, hy]
      rw [Nat.or_assoc, Nat.or_assoc, Nat.or_comm bx b]

/-- C9: every mask reachable from the default empty mask via add, remove
and pop has set bits only among the nine designated modifier positions
(its value is below 2^9); consequently on any such nonzero mask the scan
inside pop finds a set modifier, so the fall-through branch after the loop
is unreachable. -/
theorem reachableMask_bits_and_pop_total :
    (∀ m : ModifierKeysMask, ReachableMask m → m.mask < 512) ∧
    (∀ m : ModifierKeysMask, m.mask < 512 → m.mask ≠ 0 →
      (popScan m MODIFIERS.reverse).isSome = true) := by
  constructor
  · intro m h
    induction h with
    | start => decide
    | add k _ ih => exact mask_add_lt ih k
    | remove k _ ih => exact lt_of_le_of_lt (mask_remove_le _ k) ih
    | pop _ ih => exact lt_of_le_of_lt (mask_pop_le _) ih
  · intro m hm h0
    cases m with
    | mk v => exact popScan_total_fin ⟨v, hm⟩ h0

theorem reachableMask_bits_and_pop_total_witness :
    ((⟨0⟩ : ModifierKeysMask).add .KEY_LEFTSHIFT).mask < 512 ∧
    (popScan ⟨3⟩ MODIFIERS.reverse).isSome = true :=
  ⟨reachableMask_bits_and_pop_total.1 _ (ReachableMask.add _ ReachableMask.start),
   reachableMask_bits_and_pop_total.2 ⟨3⟩ (by decide) (by decide)⟩

/-- C3: pop on a combination with a non-empty non-modifier list removes and
returns its last element, leaving the modifiers untouched; on a
combination holding only modifiers (any mask with bits among the nine
modifier positions), repeated pop returns the set modifiers in the fixed
order RIGHTSHIFT, LEFTSHIFT, RIGHTCTRL, LEFTCTRL, RIGHTMETA, LEFTMETA,
RIGHTALT, LEFTALT, FN, independent of insertion history; pop on the empty
combination returns nothing. -/
theorem keyCombination_pop_lifo_and_modifier_order :
    (∀ (c : KeyCombination) (ks : List KeyCode) (k : KeyCode),
      c.keys = ks ++ [k] → c.pop = (some k, { c with keys := ks })) ∧
    (∀ m : ModifierKeysMask, m.mask < 512 →
      popAll ⟨m, []⟩ 9 =
        [KeyCode.KEY_RIGHTSHIFT, .KEY_LEFTSHIFT, .KEY_RIGHTCTRL, .KEY_LEFTCTRL,
         .KEY_RIGHTMETA, .KEY_LEFTMETA, .KEY_RIGHTALT, .KEY_LEFTALT, .KEY_FN].filter
          (fun k => m.contains k)) ∧
    KeyCombination.empty.pop = (none, KeyCombination.empty) := by
  refine ⟨?_, ?_, by decide⟩
  · intro c ks k h
    simp [KeyCombination.pop, h, List.getLast?_concat]
  · intro m hm
    cases m with
    | mk v => exact popAll_mods_fin ⟨v, hm⟩

theorem keyCombination_pop_lifo_and_modifier_order_witness :
    (⟨⟨0⟩, [KeyCode.KEY_A, .KEY_B]⟩ : KeyCombination).pop
      = (some .KEY_B, ⟨⟨0⟩, [.KEY_A]⟩) ∧
    popAll ⟨⟨161⟩, []⟩ 9 = [.KEY_LEFTSHIFT, .KEY_LEFTCTRL, .KEY_FN] :=
  ⟨keyCombination_pop_lifo_and_modifier_order.1 ⟨⟨0⟩, [.KEY_A, .KEY_B]⟩ [.KEY_A] .KEY_B rfl,
   (keyCombination_pop_lifo_and_modifier_order.2.1 ⟨161⟩ (by decide)).trans (by decide)⟩

/-- C4: flattening a combination yields the set modifiers in the fixed
declared order FN, LEFTALT, RIGHTALT, LEFTMETA, RIGHTMETA, LEFTCTRL,
RIGHTCTRL, LEFTSHIFT, RIGHTSHIFT followed by the non-modifier keys in
insertion order; pushing any permutation of a list of modifier keys
produces the same combination; and pushing LEFTSHIFT, A, LEFTCTRL flattens
to LEFTCTRL, LEFTSHIFT, A. -/
theorem keyCombination_iteration_canonical :
    (∀ c : KeyCombination,
      c.to_keys = MODIFIERS.filter (fun k => c.modifiers.contains k) ++ c.keys) ∧
    (∀ l₁ l₂ : List KeyCode, (∀ k ∈ l₁, is_modifier k = true) → l₁.Perm l₂ →
      KeyCombination.empty.pushAll l₁ = KeyCombination.empty.pushAll l₂) ∧
    (KeyCombination.empty.pushAll [.KEY_LEFTSHIFT, .KEY_A, .KEY_LEFTCTRL]).to_keys
      = [.KEY_LEFTCTRL, .KEY_LEFTSHIFT, .KEY_A] := by
  refine ⟨fun c => rfl, ?_, by decide⟩
  intro l₁ l₂ hmod hperm
  unfold KeyCombination.pushAll
  refine hperm.foldl_eq' ?_ _
  intro x hx y hy z
  simp only [push_modifier (hmod x hx), push_modifier (hmod y hy)]
  rw [mask_add_comm]

theorem keyCombination_iteration_canonical_witness :
    KeyCombination.empty.pushAll [.KEY_LEFTSHIFT, .KEY_LEFTCTRL] =
      KeyCombination.empty.pushAll [.KEY_LEFTCTRL, .KEY_LEFTSHIFT] :=
  keyCombination_iteration_canonical.2.1 _ _ (by decide)
    (List.Perm.swap KeyCode.KEY_LEFTCTRL KeyCode.KEY_LEFTSHIFT [])

/-
Lemmas relating FromIterator construction with push-based construction.
-/

lemma dedupFirstAux_congr :
    ∀ (l s₁ s₂ : List KeyCode), (∀ a, a ∈ s₁ ↔ a ∈ s₂) →
      dedupFirstAux s₁ l = dedupFirstAux s₂ l := by
  intro l
  induction l with
  | nil => intro s₁ s₂ _; rfl
  | cons a rest ih =>
    intro s₁ s₂ hs
    by_cases ha : a ∈ s₁
    · have ha2 : a ∈ s₂ := (hs a).mp ha
      simp [dedupFirstAux, ha, ha2, ih _ _ hs]
    · have ha2 : a ∉ s₂ := fun h => ha ((hs a).mpr h)
      simp only [dedupFirstAux, ha, ha2, if_neg]
      exact congrArg (List.cons a) (ih _ _ (fun b => by simp [List.mem_cons, hs b]))

lemma pushAll_keys :
    ∀ (l : List KeyCode) (c : KeyCombination),
      (c.pushAll l).keys
        = c.keys ++ dedupFirstAux c.keys (l.filter (fun k => !is_modifier k)) := by
  intro l
  induction l with
  | nil => intro c; simp [KeyCombination.pushAll, dedupFirstAux]
  | cons k rest ih =>
    intro c
    have hstep : KeyCombination.pushAll c (k :: rest)
        = KeyCombination.pushAll (c.push k) rest := rfl
    rw [hstep]
    by_cases hmod : is_modifier k = true
    · rw [ih]
      simp [push_modifier hmod, hmod]
    · have hmodf : is_modifier k = false := by simpa using hmod
      by_cases hmem : k ∈ c.keys
      · have hid : c.push k = c := by
          simp [KeyCombination.push, hmodf, hmem]
        rw [hid, ih]
        simp [hmodf, dedupFirstAux, hmem]
      · have hpush : c.push k = { c with keys := c.keys ++ [k] } := by
          simp [KeyCombination.push, hmodf, hmem]
        rw [hpush, ih]
        have hcongr := dedupFirstAux_congr (rest.filter (fun k => !is_modifier k))
          (c.keys ++ [k]) (k :: c.keys)
          (fun b => by simp [List.mem_append, List.mem_cons, or_comm])
        simp only [hcongr]
        simp [hmodf, dedupFirstAux, hmem, List.append_assoc]

lemma fold_modifiers_eq :
    ∀ (l : List KeyCode) (c₁ c₂ : KeyCombination), c₁.modifiers = c₂.modifiers →
      (l.foldl fromIterStep c₁).modifiers = (c₂.pushAll l).modifiers := by
  intro l
  induction l with
  | nil => intro c₁ c₂ h; simpa [KeyCombination.pushAll] using h
  | cons k rest ih =>
    intro c₁ c₂ h
    have hstep : (fromIterStep c₁ k).modifiers = (c₂.push k).modifiers := by
      by_cases hmod : is_modifier k = true
      · simp [fromIterStep, KeyCombination.push, hmod, h]
      · have hf : is_modifier k = false := by simpa using hmod
        by_cases hc : k ∈ c₂.keys <;> simp [fromIterStep, KeyCombination.push, hf, hc, h]
    exact ih _ _ hstep

lemma from_iter_fold_eq_pushAll :
    ∀ (l : List KeyCode) (c : KeyCombination),
      (∀ k ∈ l, is_modifier k = false → k ∉ c.keys) →
      (l.filter (fun k => !is_modifier k)).Nodup →
      l.foldl fromIterStep c = c.pushAll l := by
  intro l
  induction l with
  | nil => intro c _ _; rfl
  | cons k rest ih =>
    intro c hnotin hnodup
    have hstep : fromIterStep c k = c.push k := by
      by_cases hmod : is_modifier k = true
      · simp [fromIterStep, KeyCombination.push, hmod]
      · have hf : is_modifier k = false := by simpa using hmod
        have hk : k ∉ c.keys := hnotin k (by simp) hf
        simp [fromIterStep, KeyCombination.push, hf, hk]
    rw [List.foldl_cons, hstep]
    by_cases hmod : is_modifier k = true
    · have hkeys : (c.push k).keys = c.keys := by simp [push_modifier hmod]
      refine ih (c.push k) ?_ ?_
      · intro k2 hk2 hf2
        rw [hkeys]
        exact hnotin k2 (by simp [hk2]) hf2
      · have : (k :: rest).filter (fun x => !is_modifier x)
            = rest.filter (fun x => !is_modifier x) := by simp [hmod]
        rwa [this] at hnodup
    · have hf : is_modifier k = false := by simpa using hmod
      have hfilter : (k :: rest).filter (fun x => !is_modifier x)
          = k :: rest.filter (fun x => !is_modifier x) := by simp [hf]
      rw [hfilter] at hnodup
      have hknotin : k ∉ rest.filter (fun x => !is_modifier x) := (List.nodup_cons.mp hnodup).1
      have hrestnodup := (List.nodup_cons.mp hnodup).2
      have hk : k ∉ c.keys := hnotin k (by simp) hf
      have hkeys : (c.push k).keys = c.keys ++ [k] := by
        simp [KeyCombination.push, hf, hk]
      refine ih (c.push k) ?_ hrestnodup
      intro k2 hk2 hf2
      rw [hkeys]
      have hne : k2 ≠ k := by
        intro he
        apply hknotin
        rw [← he]
        exact List.mem_filter.mpr ⟨hk2, by simp [hf2]⟩
      simp [List.mem_append, hne]
      exact hnotin k2 (by simp [hk2]) hf2

/-- C1 counterexample: constructing a combination from the sequence
KEY_A, KEY_A via FromIterator differs from push-based construction, and its
flattened sequence contains KEY_A twice, refuting the claim that the two
constructions agree and that the flattened sequence of the constructed
combination holds each key exactly once. -/
theorem from_iter_duplicate_counterexample :
    KeyCombination.from_iter [.KEY_A, .KEY_A]
        ≠ KeyCombination.empty.pushAll [.KEY_A, .KEY_A] ∧
      (KeyCombination.from_iter [.KEY_A, .KEY_A]).to_keys = [.KEY_A, .KEY_A] ∧
      (KeyCombination.empty.pushAll [.KEY_A, .KEY_A]).to_keys = [.KEY_A] := by
  refine ⟨?_, by decide, by decide⟩
  decide

/-- C1 amended: FromIterator construction classifies each element and
accumulates modifiers exactly as repeated push does, and agrees with
push-based construction whenever the input contains no duplicate
non-modifier key; push-based construction always deduplicates, its
flattened non-modifier part holding each non-modifier key exactly once in
first-seen order. With duplicate non-modifier keys the FromIterator path
keeps the duplicates, so the two constructions differ there. -/
theorem from_iter_vs_push_construction :
    (∀ l : List KeyCode, (l.filter (fun k => !is_modifier k)).Nodup →
      KeyCombination.from_iter l = KeyCombination.empty.pushAll l) ∧
    (∀ l : List KeyCode,
      (KeyCombination.empty.pushAll l).keys
        = dedupFirstAux [] (l.filter (fun k => !is_modifier k))) ∧
    (∀ l : List KeyCode,
      (KeyCombination.from_iter l).modifiers
        = (KeyCombination.empty.pushAll l).modifiers) := by
  refine ⟨?_, ?_, ?_⟩
  · intro l hnodup
    exact from_iter_fold_eq_pushAll l KeyCombination.empty (by intro k _ _; simp [KeyCombination.empty]) hnodup
  · intro l
    have h := pushAll_keys l KeyCombination.empty
    simpa [KeyCombination.empty] using h
  · intro l
    exact fold_modifiers_eq l KeyCombination.empty KeyCombination.empty rfl

theorem from_iter_vs_push_construction_witness :
    KeyCombination.from_iter [.KEY_LEFTSHIFT, .KEY_A]
      = KeyCombination.empty.pushAll [.KEY_LEFTSHIFT, .KEY_A] :=
  from_iter_vs_push_construction.1 _ (by decide)

/-
Device resolution and discovery ordering.
-/

lemma charListLt_irrefl : ∀ as, charListLt as as = false
  | [] => rfl
  | a :: as => by simp [charListLt, charListLt_irrefl as]

lemma charListLt_asymm : ∀ as bs, charListLt as bs = true → charListLt bs as = false
  | _, [], h => by simp [charListLt] at h
  | [], _ :: _, _ => rfl
  | a :: as, b :: bs, h => by
    by_cases hab : a = b
    · subst hab
      simp only [charListLt, if_pos rfl] at h ⊢
      exact charListLt_asymm as bs h
    · have hba : b ≠ a := fun he => hab he.symm
      simp only [charListLt, if_neg hab, decide_eq_true_eq] at h
      simp only [charListLt, if_neg hba, decide_eq_false_iff_not]
      exact lt_asymm h

lemma charListLt_trans :
    ∀ as bs cs, charListLt as bs = true → charListLt bs cs = true → charListLt as cs = true
  | _, _, [], _, h2 => by simp [charListLt] at h2
  | _, [], _ :: _, h1, _ => by simp [charListLt] at h1
  | [], _ :: _, _ :: _, _, _ => rfl
  | a :: as, b :: bs, c :: cs, h1, h2 => by
    by_cases hab : a = b <;> by_cases hbc : b = c
    · subst hab
      subst hbc
      simp only [charListLt, if_pos rfl] at h1 h2 ⊢
      exact charListLt_trans as bs cs h1 h2
    · subst hab
      simp only [charListLt, if_neg hbc] at h2 ⊢
      exact h2
    · subst hbc
      simp only [charListLt, if_neg hab] at h1 ⊢
      exact h1
    · simp only [charListLt, if_neg hab, if_neg hbc, decide_eq_true_eq] at h1 h2
      have hac : a < c := lt_trans h1 h2
      simp only [charListLt, if_neg (ne_of_lt hac), decide_eq_true_eq]
      exact hac

lemma charListLt_total : ∀ as bs, charListLt as bs = true ∨ as = bs ∨ charListLt bs as = true
  | [], [] => Or.inr (Or.inl rfl)
  | [], _ :: _ => Or.inl rfl
  | _ :: _, [] => Or.inr (Or.inr rfl)
  | a :: as, b :: bs => by
    by_cases hab : a = b
    · subst hab
      rcases charListLt_total as bs with h | h | h
      · exact Or.inl (by simpa [charListLt] using h)
      · exact Or.inr (Or.inl (by rw [h]))
      · exact Or.inr (Or.inr (by simpa [charListLt] using h))
    · rcases lt_trichotomy a b with h | h | h
      · exact Or.inl (by simp [charListLt, hab, h])
      · exact absurd h hab
      · have hba : b ≠ a := fun he => hab he.symm
        exact Or.inr (Or.inr (by simp [charListLt, hba, h]))

lemma stringLt_asymm {a b : String} (h : stringLt a b = true) : stringLt b a = false :=
  charListLt_asymm _ _ h

lemma stringLt_irrefl (a : String) : stringLt a a = false :=
  charListLt_irrefl _

lemma stringLt_total (a b : String) : stringLt a b = true ∨ a = b ∨ stringLt b a = true := by
  rcases charListLt_total a.toList b.toList with h | h | h
  · exact Or.inl h
  · refine Or.inr (Or.inl ?_)
    cases a with
    | mk da =>
      cases b with
      | mk db => exact congrArg String.mk (by simpa [String.toList] using h)
  · exact Or.inr (Or.inr h)

instance : IsTotal DeviceInfo deviceLe where
  total a b := by
    rcases stringLt_total a.name b.name with h | h | h
    · exact Or.inl (Or.inl h)
    · rcases le_total (event_number_from_path a.path) (event_number_from_path b.path) with hn | hn
      · exact Or.inl (Or.inr ⟨h, hn⟩)
      · exact Or.inr (Or.inr ⟨h.symm, hn⟩)
    · exact Or.inr (Or.inl h)

instance : IsTrans DeviceInfo deviceLe where
  trans a b c hab hbc := by
    rcases hab with h1 | ⟨h1, h1n⟩ <;> rcases hbc with h2 | ⟨h2, h2n⟩
    · exact Or.inl (charListLt_trans _ _ _ h1 h2)
    · exact Or.inl (by rw [← h2]; exact h1)
    · exact Or.inl (by rw [h1]; exact h2)
    · exact Or.inr ⟨h1.trans h2, le_trans h1n h2n⟩

instance : IsAntisymm DeviceInfo deviceKeyLt where
  antisymm a b hab hba := by
    exfalso
    rcases hab with h1 | ⟨h1, h1n⟩ <;> rcases hba with h2 | ⟨h2, h2n⟩
    · rw [stringLt_asymm h1] at h2
      exact Bool.false_ne_true h2
    · rw [h2, stringLt_irrefl] at h1
      exact Bool.false_ne_true h1
    · rw [h1, stringLt_irrefl] at h2
      exact Bool.false_ne_true h2
    · exact absurd h2n (by omega)

/-- C5: when a phys id is supplied and no device carries it, resolution
fails with the DeviceNotFound (name and phys) error; it never falls back to
name matching, even when a device with the requested name is present under
a different phys id. -/
theorem with_name_phys_no_fallback (devices : List DeviceInfo) (name qp : String)
    (h : ∀ d ∈ devices, d.phys ≠ some qp) :
    with_name devices name (some qp) = .error (.DeviceNotFound name qp) := by
  have hfind : devices.find? (fun item => item.phys == some qp) = none := by
    rw [List.find?_eq_none]
    intro d hd
    simp [h d hd]
  simp [with_name, hfind]

theorem with_name_phys_no_fallback_witness :
    with_name [⟨"kbd", some "usb-1", "/dev/input/event0", true⟩] "kbd" (some "usb-2")
      = .error (.DeviceNotFound "kbd" "usb-2") :=
  with_name_phys_no_fallback _ _ _ (by decide)

/-- C10: with a supplied phys id, resolution matches on the phys field
alone: the first device in discovery order whose phys equals the query is
returned, regardless of its name and with no uniqueness check on later
matches. -/
theorem with_name_phys_first_match
    (pre post : List DeviceInfo) (d : DeviceInfo) (name qp : String)
    (hpre : ∀ x ∈ pre, x.phys ≠ some qp) (hd : d.phys = some qp) :
    with_name (pre ++ d :: post) name (some qp) = .ok d := by
  have hpre2 : pre.find? (fun item => item.phys == some qp) = none := by
    rw [List.find?_eq_none]
    intro x hx
    simp [hpre x hx]
  have hfind : (pre ++ d :: post).find? (fun item => item.phys == some qp) = some d := by
    rw [List.find?_append, hpre2]
    simp [hd]
  simp [with_name, hfind]

theorem with_name_phys_first_match_witness :
    with_name
        [⟨"kbd", some "usb-1", "/dev/input/event0", true⟩,
         ⟨"trackpad", some "usb-2", "/dev/input/event1", true⟩,
         ⟨"kbd", some "usb-2", "/dev/input/event2", true⟩] "kbd" (some "usb-2")
      = .ok ⟨"trackpad", some "usb-2", "/dev/input/event1", true⟩ :=
  with_name_phys_first_match [⟨"kbd", some "usb-1", "/dev/input/event0", true⟩]
    [⟨"kbd", some "usb-2", "/dev/input/event2", true⟩] _ _ _ (by decide) rfl

/-- C7: without a phys id, resolution filters by exact name: no match is
the DeviceNotFoundByName error; one or more matches return the first
matching device in discovery order without error, however many other
devices share the name. -/
theorem with_name_by_name_first_match :
    (∀ (devices : List DeviceInfo) (name : String), (∀ d ∈ devices, d.name ≠ name) →
      with_name devices name none = .error (.DeviceNotFoundByName name)) ∧
    (∀ (pre post : List DeviceInfo) (d : DeviceInfo) (name : String),
      (∀ x ∈ pre, x.name ≠ name) → d.name = name →
      with_name (pre ++ d :: post) name none = .ok d) := by
  constructor
  · intro devices name h
    have hfilter : devices.filter (fun item => item.name == name) = [] := by
      rw [List.filter_eq_nil_iff]
      intro a ha
      simp [h a ha]
    simp [with_name, hfilter]
  · intro pre post d name hpre hd
    have hpre2 : pre.filter (fun item => item.name == name) = [] := by
      rw [List.filter_eq_nil_iff]
      intro a ha
      simp [hpre a ha]
    have hfilter : (pre ++ d :: post).filter (fun item => item.name == name)
        = d :: post.filter (fun item => item.name == name) := by
      rw [List.filter_append, hpre2]
      simp [hd]
    simp [with_name, hfilter]

theorem with_name_by_name_first_match_witness :
    with_name [⟨"kbd", some "usb-1", "/dev/input/event0", true⟩] "mouse" none
      = .error (.DeviceNotFoundByName "mouse") ∧
    with_name
        [⟨"kbd", some "usb-1", "/dev/input/event0", true⟩,
         ⟨"kbd", some "usb-2", "/dev/input/event1", true⟩] "kbd" none
      = .ok ⟨"kbd", some "usb-1", "/dev/input/event0", true⟩ :=
  ⟨with_name_by_name_first_match.1 _ _ (by decide),
   with_name_by_name_first_match.2 [] [⟨"kbd", some "usb-2", "/dev/input/event1", true⟩]
     _ _ (by intro x hx; simp at hx) rfl⟩

/-- C6 counterexample: two devices sharing a display name whose paths both
lack a parsable numeric suffix (both default to 0) tie under the sort key,
and the stable sort preserves their input order; the same set of
(name, path) pairs enumerated in the two orders therefore sorts to two
different lists, refuting input-order independence of the result. -/
theorem sortDevices_order_dependent_counterexample :
    sortDevices
        [⟨"kbd", none, "/dev/input/eventx", true⟩, ⟨"kbd", none, "/dev/input/eventy", true⟩]
      = [⟨"kbd", none, "/dev/input/eventx", true⟩, ⟨"kbd", none, "/dev/input/eventy", true⟩] ∧
    sortDevices
        [⟨"kbd", none, "/dev/input/eventy", true⟩, ⟨"kbd", none, "/dev/input/eventx", true⟩]
      = [⟨"kbd", none, "/dev/input/eventy", true⟩, ⟨"kbd", none, "/dev/input/eventx", true⟩] ∧
    sortDevices
        [⟨"kbd", none, "/dev/input/eventx", true⟩, ⟨"kbd", none, "/dev/input/eventy", true⟩]
      ≠ sortDevices
        [⟨"kbd", none, "/dev/input/eventy", true⟩, ⟨"kbd", none, "/dev/input/eventx", true⟩] := by
  refine ⟨by decide, by decide, by decide⟩

/-- C6 amended: the enumeration result is a permutation of the probed
devices sorted ascending by display name with ties broken by the numeric
path suffix (0 when unparsable); and the order is independent of the
enumeration order of the input whenever no two devices share both the name
and the parsed suffix, which holds for conventional distinct event-node
paths. With a duplicated (name, suffix) key the stable sort preserves the
input order of the tied devices instead. -/
theorem sortDevices_sorted_and_deterministic :
    (∀ l : List DeviceInfo, (sortDevices l).Perm l ∧ (sortDevices l).Sorted deviceLe) ∧
    (∀ l₁ l₂ : List DeviceInfo, l₁.Perm l₂ →
      l₁.Pairwise (fun a b => devKey a ≠ devKey b) →
      sortDevices l₁ = sortDevices l₂) := by
  constructor
  · intro l
    exact ⟨List.perm_insertionSort deviceLe l, List.sorted_insertionSort deviceLe l⟩
  · intro l₁ l₂ hperm hne
    have hperm₁ : (sortDevices l₁).Perm l₁ := List.perm_insertionSort deviceLe l₁
    have hperm₂ : (sortDevices l₂).Perm l₂ := List.perm_insertionSort deviceLe l₂
    have hne₁ : (sortDevices l₁).Pairwise (fun a b => devKey a ≠ devKey b) :=
      (hperm₁.pairwise_iff (fun h => h.symm)).mpr hne
    have hne₂ : (sortDevices l₂).Pairwise (fun a b => devKey a ≠ devKey b) :=
      (hperm₂.pairwise_iff (fun h => h.symm)).mpr
        ((hperm.pairwise_iff (fun h => h.symm)).mp hne)
    have hs₁ : (sortDevices l₁).Sorted deviceKeyLt :=
      ((List.sorted_insertionSort deviceLe l₁).and hne₁).imp (fun hab => by
        obtain ⟨hle, hkne⟩ := hab
        rcases hle with h | ⟨h, hn⟩
        · exact Or.inl h
        · rcases lt_or_eq_of_le hn with h2 | h2
          · exact Or.inr ⟨h, h2⟩
          · exact absurd (by simp [devKey, Prod.ext_iff, h, h2]) hkne)
    have hs₂ : (sortDevices l₂).Sorted deviceKeyLt :=
      ((List.sorted_insertionSort deviceLe l₂).and hne₂).imp (fun hab => by
        obtain ⟨hle, hkne⟩ := hab
        rcases hle with h | ⟨h, hn⟩
        · exact Or.inl h
        · rcases lt_or_eq_of_le hn with h2 | h2
          · exact Or.inr ⟨h, h2⟩
          · exact absurd (by simp [devKey, Prod.ext_iff, h, h2]) hkne)
    exact List.eq_of_perm_of_sorted (hperm₁.trans (hperm.trans hperm₂.symm)) hs₁ hs₂

theorem sortDevices_sorted_and_deterministic_witness :
    sortDevices
        [⟨"b", none, "/dev/input/event1", true⟩, ⟨"a", none, "/dev/input/event0", true⟩]
      = sortDevices
        [⟨"a", none, "/dev/input/event0", true⟩, ⟨"b", none, "/dev/input/event1", true⟩] :=
  sortDevices_sorted_and_deterministic.2 _ _
    (List.Perm.swap (⟨"a", none, "/dev/input/event0", true⟩ : DeviceInfo)
      (⟨"b", none, "/dev/input/event1", true⟩ : DeviceInfo) [])
    (by decide)

/-
Capture worker and coordinator.
-/

/-- C8: the worker loop refines its specification: the forwarded messages
are exactly the successful key events of the iterations strictly before
the first terminal iteration, in the order read, and the loop terminates
as decided by that first terminal iteration: a stop message or a
disconnected stop channel (checked non-blockingly before the read) or a
sync read status stop the worker, a read error fails it with that error,
and discarded non-key events contribute nothing. -/
theorem event_logger_task_refines_spec (s : List WorkerIter) :
    event_logger_task s = (forwardedSpec s, outcomeSpec s) := by
  induction s with
  | nil => rfl
  | cons it rest ih =>
    cases hp : it.poll with
    | msgStop =>
      simp [event_logger_task, forwardedSpec, outcomeSpec, iterTerminal, hp]
    | disconnected =>
      simp [event_logger_task, forwardedSpec, outcomeSpec, iterTerminal, hp]
    | empty =>
      cases hr : it.read with
      | error e =>
        simp [event_logger_task, forwardedSpec, outcomeSpec, iterTerminal, hp, hr]
      | ok p =>
        obtain ⟨st, ev⟩ := p
        cases st with
        | sync =>
          simp [event_logger_task, forwardedSpec, outcomeSpec, iterTerminal, hp, hr]
        | success =>
          cases ev with
          | key c v =>
            simp [event_logger_task, forwardedSpec, outcomeSpec, iterTerminal, iterKeyEvent,
              hp, hr, ih]
          | other =>
            simp [event_logger_task, forwardedSpec, outcomeSpec, iterTerminal, iterKeyEvent,
              hp, hr, ih]

lemma run_append (m : EventLoggerModel) (l₁ l₂ : List CoordEvent) :
    m.run (l₁ ++ l₂) = (m.run l₁).run l₂ := by
  simp [EventLoggerModel.run, List.foldl_append]

lemma runConsCmd (m : EventLoggerModel) (c : EventCommandMsg) (tr : List CoordEvent) :
    m.run (.cmd c :: tr) = (m.update_cmd c).run tr := rfl

lemma run_paused (o : Option DeviceInfo) (buf : List (KeyCode × Int)) :
    ∀ E : List (KeyCode × Int),
      (EventLoggerModel.mk o buf true).run
          (E.map (fun p => CoordEvent.cmd (.NewEvent p.1 p.2)))
        = ⟨o, buf, true⟩ := by
  intro E
  induction E with
  | nil => rfl
  | cons p rest ih =>
    have hstep : (EventLoggerModel.mk o buf true).update_cmd (.NewEvent p.1 p.2)
        = ⟨o, buf, true⟩ := by
      simp [EventLoggerModel.update_cmd]
    rw [List.map_cons, runConsCmd, hstep]
    exact ih

lemma run_unpaused (d : DeviceInfo) :
    ∀ (F : List (KeyCode × Int)) (buf : List (KeyCode × Int)),
      (EventLoggerModel.mk (some d) buf false).run
          (F.map (fun p => CoordEvent.cmd (.NewEvent p.1 p.2)))
        = ⟨some d, buf ++ F, false⟩ := by
  intro F
  induction F with
  | nil => intro buf; simp [EventLoggerModel.run]
  | cons p rest ih =>
    intro buf
    have hstep : (EventLoggerModel.mk (some d) buf false).update_cmd (.NewEvent p.1 p.2)
        = ⟨some d, buf ++ [p], false⟩ := by
      simp [EventLoggerModel.update_cmd]
    rw [List.map_cons, runConsCmd, hstep, ih (buf ++ [p])]
    simp

/-- C2 counterexample: set a device, pause, deliver the event (KEY_A, 1),
then resume: the visible log is empty, so it does not contain the event
observed while paused, refuting the claim that resuming reveals all events
observed since the device was last set. -/
theorem paused_event_not_revealed_counterexample :
    (EventLoggerModel.start.run
        [.input (.SetDevice ⟨"kbd", none, "/dev/input/event0", true⟩), .input .Pause,
         .cmd (.NewEvent .KEY_A 1), .input .Resume]).text_buf = [] ∧
    ¬ ((KeyCode.KEY_A, (1 : Int)) ∈
      (EventLoggerModel.start.run
        [.input (.SetDevice ⟨"kbd", none, "/dev/input/event0", true⟩), .input .Pause,
         .cmd (.NewEvent .KEY_A 1), .input .Resume]).text_buf) := by
  exact ⟨rfl, by decide⟩

/-- C2 amended: the worker keeps consuming events while paused and every
event message is processed by the coordinator without blocking, but a
NewEvent arriving while paused leaves the visible log unchanged; after a
set-device, pause, events E, resume, events F scenario the visible log
holds exactly the events F delivered after resume, the paused events E
being dropped rather than revealed. -/
theorem pause_suppresses_log_only :
    (∀ (m : EventLoggerModel) (k : KeyCode) (v : Int), m.is_paused = true →
      m.update_cmd (.NewEvent k v) = m) ∧
    (∀ (d : DeviceInfo) (E F : List (KeyCode × Int)),
      (EventLoggerModel.start.run
          ([CoordEvent.input (.SetDevice d), .input .Pause]
            ++ E.map (fun p => CoordEvent.cmd (.NewEvent p.1 p.2))
            ++ [CoordEvent.input .Resume]
            ++ F.map (fun p => CoordEvent.cmd (.NewEvent p.1 p.2)))).text_buf = F) := by
  constructor
  · intro m k v h
    simp [EventLoggerModel.update_cmd, h]
  · intro d E F
    rw [run_append, run_append, run_append]
    have h1 : EventLoggerModel.start.run [CoordEvent.input (.SetDevice d), .input .Pause]
        = ⟨some d, [], true⟩ := rfl
    rw [h1, run_paused]
    have h2 : (EventLoggerModel.mk (some d) [] true).run [CoordEvent.input .Resume]
        = ⟨some d, [], false⟩ := rfl
    rw [h2, run_unpaused]
    simp

theorem pause_suppresses_log_only_witness :
    (EventLoggerModel.mk none [] true).update_cmd (.NewEvent .KEY_A 1) = ⟨none, [], true⟩ ∧
    (EventLoggerModel.start.run
        ([CoordEvent.input (.SetDevice ⟨"kbd", none, "/dev/input/event0", true⟩),
          .input .Pause]
          ++ [((KeyCode.KEY_A, (1 : Int)))].map (fun p => CoordEvent.cmd (.NewEvent p.1 p.2))
          ++ [CoordEvent.input .Resume]
          ++ [((KeyCode.KEY_B, (2 : Int)))].map
              (fun p => CoordEvent.cmd (.NewEvent p.1 p.2)))).text_buf
      = [(KeyCode.KEY_B, (2 : Int))] :=
  ⟨pause_suppresses_log_only.1 _ _ _ rfl,
   pause_suppresses_log_only.2 ⟨"kbd", none, "/dev/input/event0", true⟩
     [(KeyCode.KEY_A, (1 : Int))] [(KeyCode.KEY_B, (2 : Int))]⟩

end EvremapGtk
